import Mathlib

/-
Verification of the gai action-orchestration pipeline (commit / stash / push
with PR reconciliation).  The Go program is embedded shallowly: every external
effect (git subprocess, gh subprocess, OpenAI call, interactive editor
session) is an oracle supplied by a `World`, and each action is a pure
function from a `World` to the list of external invocations it performs
(its trace) together with its Go-level error result.  The definitions mirror
the v1.0.4 source (the variant using embedded templates, `editContentInEditor`,
`HasChanges`, `HasCommitsToPush` and passthrough flags); the older Vim-based
review step `editContentWithVim` is embedded as well, since the spec text
partly describes it.
-/

namespace Gai

/-- Combined output and exit status of one external command, exactly what
`runCmd` hands back to callers (the output is already whitespace-trimmed by
`runCmd`). -/
structure CmdResult where
  out : String
  ok  : Bool
  deriving DecidableEq

/-- Outcome of one `gh pr list --head <branch> --json number` invocation
followed by the JSON decode performed in `getExistingPRNumber`: the command
can exit non-zero, the decode can fail, or a list of PR numbers is obtained. -/
inductive LookupRes where
  | cmdErr
  | parseErr
  | ok (nums : List Int)
  deriving DecidableEq

/-- One message of an OpenAI chat completion choice. -/
structure ChatMessage where
  content : String
  deriving DecidableEq

/-- One candidate completion returned by the OpenAI call. -/
structure ChatChoice where
  message : ChatMessage
  deriving DecidableEq

/-- The response of `CreateChatCompletion`: a list of candidate completions. -/
structure ChatResponse where
  choices : List ChatChoice
  deriving DecidableEq

/-- Observable outcome of one interactive editor session on the temporary
review file: whether the temp-file creation, the initial write, the editor
launch and the final re-read succeeded, whether the modification timestamp of
the file changed during the session, and the content read back afterwards. -/
structure EditSession where
  createOk     : Bool
  writeOk      : Bool
  launchOk     : Bool
  readOk       : Bool
  mtimeChanged : Bool
  finalContent : String
  deriving DecidableEq

/-- Which instruction template a generation call used. -/
inductive GenKind where
  | commitMsg
  | prTitle
  | prBody
  deriving DecidableEq

/-- External invocations performed by an action, in order.  Informational
user-facing reports (no-op and cancellation notices) are recorded as `info`
events; debug and error logging is not modelled (it carries no state). -/
inductive Event where
  | gitDiff (staged : Bool)
  | gitAddAll
  | gitRevParse
  | gitLog (base head : String)
  | gitFetch (remote branch : String)
  | gitPush (args : List String)
  | gitCommit (msg : String) (flags : List String)
  | gitStashPush (msg : String) (extra : List String)
  | ghPrList (branch : String)
  | ghPrCreate (title body : String)
  | ghPrEdit (num body : String)
  | ghPrView (num : String)
  | genCall (kind : GenKind) (input : String)
  | editorSession (initial : String)
  | info (msg : String)
  deriving DecidableEq

/-- Oracle for every external interaction of one action invocation.  Diff
results are indexed by whether `git add .` has already run in this invocation,
and the commit-subject log by whether `git fetch` has already run (both can
change the answer).  Generation calls, editor sessions and PR lookups are
indexed by their occurrence number inside the invocation. -/
structure World where
  mainBranch    : String
  stagedDiff    : Bool → CmdResult
  unstagedDiff  : Bool → CmdResult
  addAllOk      : Bool
  currentBranch : CmdResult
  commitMsgs    : Bool → CmdResult
  fetchOk       : Bool
  pushCmd       : CmdResult
  commitCmd     : CmdResult
  stashCmd      : CmdResult
  prEditCmd     : CmdResult
  prCreateCmd   : CmdResult
  lookup        : Nat → LookupRes
  gen           : Nat → Except String ChatResponse
  editor        : Nat → EditSession

/-- Embedding of `buildInputData`: the assembled input block sent as the third
chat message. -/
def buildInputData (ticketNumber branchName prTitle commits diff : String) : String :=
  "INPUT:\nTICKET NUMBER: " ++ ticketNumber ++ "\nBRANCH NAME:   " ++ branchName ++
    "\nPULL REQUEST TITLE: " ++ prTitle ++ "\nCOMMIT MESSAGES LIST:\n" ++ commits ++
    "\nGIT DIFFERENCE TO HEAD:\n" ++ diff ++ "\n"

/-- Embedding of `GenerateMessage` as a function of the `CreateChatCompletion`
outcome: a transport error or a zero-choice response yields an error, otherwise
the content of the first candidate completion is returned. -/
def GenerateMessage (callResult : Except String ChatResponse) : Except String String :=
  match callResult with
  | .error e => .error ("OpenAI API request failed: " ++ e)
  | .ok resp =>
    match resp.choices with
    | [] => .error "No response from GPT"
    | c :: _ => .ok c.message.content

/-- Embedding of `strings.TrimSpace`: drop whitespace from both ends (written
over the character list so that it evaluates inside the kernel). -/
def trimSpace (s : String) : String :=
  ((s.toList.dropWhile Char.isWhitespace).reverse.dropWhile Char.isWhitespace).reverse.asString

/-- Embedding of `strings.TrimPrefix`: remove `p` from the front of `s` when
present, otherwise return `s` unchanged. -/
def stripLeading (s p : String) : String :=
  if p.toList.isPrefixOf s.toList then (s.toList.drop p.toList.length).asString else s

/-- Embedding of `strings.SplitN(s, "\n", 2)[0]`: the text before the first
newline. -/
def firstLineOf (s : String) : String :=
  (s.toList.takeWhile (fun c => !(c == '\n'))).asString

/-- Embedding of the v1.0.4 review step `editContentInEditor` as a function of
the editor-session outcome.  It fails closed on any file or launch error and
otherwise approves exactly when the trimmed final content is non-empty; the
modification timestamp is never consulted. -/
def editContentInEditor (s : EditSession) : String × Bool :=
  if !s.createOk then ("", false)
  else if !s.writeOk then ("", false)
  else if !s.launchOk then ("", false)
  else if !s.readOk then ("", false)
  else if trimSpace s.finalContent == "" then (s.finalContent, false)
  else (s.finalContent, true)

/-- Embedding of the older review step `editContentWithVim`: the write result
is discarded by the source (`_, _ = tmpFile.WriteString(...)`), and approval
additionally requires the modification timestamp to have changed. -/
def editContentWithVim (s : EditSession) : String × Bool :=
  if !s.createOk then ("", false)
  else if !s.launchOk then ("", false)
  else if !s.readOk then ("", false)
  else if !s.mtimeChanged || trimSpace s.finalContent == "" then (s.finalContent, false)
  else (s.finalContent, true)

/-- Attempt to match the regular expression `[A-Z]+-\d+` at the start of `l`
(RE2 semantics: a maximal run of ASCII uppercase letters, a hyphen, then a
maximal run of ASCII digits; backtracking the first run cannot help because a
hyphen is not an uppercase letter). -/
def matchTicketAt (l : List Char) : Option (List Char) :=
  let u := l.takeWhile Char.isUpper
  if u.isEmpty then none
  else
    match l.dropWhile Char.isUpper with
    | c :: rest =>
      if c == '-' then
        let d := rest.takeWhile Char.isDigit
        if d.isEmpty then none else some (u ++ c :: d)
      else none
    | [] => none

/-- Leftmost match of `[A-Z]+-\d+` in `l`, the embedding of
`regexp.MustCompile(pattern).FindString` for this fixed pattern. -/
def findTicketList : List Char → Option (List Char)
  | [] => none
  | c :: cs =>
    match matchTicketAt (c :: cs) with
    | some m => some m
    | none => findTicketList cs

/-- Embedding of `detectTicketNumber`: first substring of the branch name
matching `[A-Z]+-\d+`, or the sentinel. -/
def detectTicketNumber (branch : String) : String :=
  match findTicketList branch.toList with
  | some m => m.asString
  | none => "NO-TICKET"

/-- Formalisation of the words of the spec: a character list is a complete
match of the pattern `[A-Z]+-\d+` (one or more ASCII uppercase letters, a
hyphen, one or more ASCII digits, nothing else). -/
def ticketShape (t : List Char) : Bool :=
  !(t.takeWhile Char.isUpper).isEmpty &&
    (match t.dropWhile Char.isUpper with
     | c :: d => c == '-' && !d.isEmpty && d.all Char.isDigit
     | [] => false)

/-- Embedding of `getExistingPRNumber` as a function of the lookup outcome:
command or decode failure is an error; an empty list resolves to the empty
string; otherwise the first number is formatted with `%d`. -/
def getExistingPRNumber (r : LookupRes) : Except String String :=
  match r with
  | .cmdErr => .error "failed to check existing PRs"
  | .parseErr => .error "failed to parse PR list JSON"
  | .ok [] => .ok ""
  | .ok (n :: _) => .ok (toString n)

/-- Embedding of `GitOperations.HasChanges`: read the staged then the unstaged
diff, propagating the first failure, and report whether either is non-empty
after trimming. -/
def hasChanges (w : World) : List Event × Except String Bool :=
  if !(w.stagedDiff false).ok then
    ([Event.gitDiff true], .error "failed to check for changes")
  else if !(w.unstagedDiff false).ok then
    ([Event.gitDiff true, Event.gitDiff false], .error "failed to check for changes")
  else
    ([Event.gitDiff true, Event.gitDiff false],
      .ok (trimSpace (w.stagedDiff false).out != "" || trimSpace (w.unstagedDiff false).out != ""))

/-- Embedding of `GitOperations.HasCommitsToPush`: read the commit subjects
between the tracking ref of the main branch and the current branch (before any
fetch), propagating failure, and report whether the trimmed list is
non-empty. -/
def hasCommitsToPush (w : World) (branch : String) : List Event × Except String Bool :=
  ([Event.gitLog w.mainBranch branch],
    if (w.commitMsgs false).ok then .ok (trimSpace (w.commitMsgs false).out != "")
    else .error "failed to check for commits to push")

/-- Embedding of `stageChangesIfNeeded`: if the staged diff (whose error is
discarded by the source) trims non-empty, do nothing; otherwise run
`git add .` and propagate its failure.  The returned flag records whether the
add ran. -/
def stageChangesIfNeeded (w : World) : List Event × (Bool × Except String Unit) :=
  if trimSpace (w.stagedDiff false).out != "" then
    ([Event.gitDiff true], (false, .ok ()))
  else if w.addAllOk then
    ([Event.gitDiff true, Event.gitAddAll], (true, .ok ()))
  else
    ([Event.gitDiff true, Event.gitAddAll], (true, .error "failed to stage changes"))

/-- Embedding of `generateDiffBasedMessage`: read the requested diff (error
discarded by the source), assemble the input block, call generation, and on
success run the review step; generation failure yields an unapproved empty
result. -/
def generateDiffBasedMessage (w : World) (staged added : Bool) (gi ei : Nat) :
    List Event × (String × Bool) :=
  let d := if staged then w.stagedDiff added else w.unstagedDiff added
  let userData := buildInputData "" "" "" "" d.out
  match GenerateMessage (w.gen gi) with
  | .error _ =>
    ([Event.gitDiff staged, Event.genCall .commitMsg userData], ("", false))
  | .ok aiOutput =>
    ([Event.gitDiff staged, Event.genCall .commitMsg userData, Event.editorSession aiOutput],
      editContentInEditor (w.editor ei))

/-- Embedding of `GitAI.Commit`: no-op when there is nothing to commit, stage
if needed, generate and review a message, then `git commit` with the approved
message and passthrough flags.  Review rejection cancels without error. -/
def gaiCommit (w : World) (extra : List String) : List Event × Except String Unit :=
  match hasChanges w with
  | (e1, .error e) => (e1, .error e)
  | (e1, .ok b) =>
    if !b then
      (e1 ++ [Event.info "ℹ️ Nothing to commit. Exiting."], .ok ())
    else
      match stageChangesIfNeeded w with
      | (e2, (_, .error e)) => (e1 ++ e2, .error e)
      | (e2, (added, .ok _)) =>
        match generateDiffBasedMessage w true added 0 0 with
        | (e3, (_, false)) =>
          (e1 ++ e2 ++ e3 ++ [Event.info "🚫 Commit canceled by user."], .ok ())
        | (e3, (msg, true)) =>
          if w.commitCmd.ok then
            (e1 ++ e2 ++ e3 ++ [Event.gitCommit msg extra], .ok ())
          else
            (e1 ++ e2 ++ e3 ++ [Event.gitCommit msg extra], .error "failed to commit changes")

/-- Embedding of `GitAI.Stash`: generate and review a message from the
unstaged diff (no changes check), then `git stash push -m <msg>` with the
passthrough flags.  Review rejection cancels without error. -/
def gaiStash (w : World) (extra : List String) : List Event × Except String Unit :=
  match generateDiffBasedMessage w false false 0 0 with
  | (e1, (_, false)) =>
    (e1 ++ [Event.info "🚫 Stash canceled by user."], .ok ())
  | (e1, (msg, true)) =>
    if w.stashCmd.ok then
      (e1 ++ [Event.gitStashPush msg extra], .ok ())
    else
      (e1 ++ [Event.gitStashPush msg extra], .error "failed to stash changes")

/-- Embedding of `pushChanges`: fetch the configured main branch from origin
(fatal on failure), re-resolve the current branch, then run
`git push origin <branch>` with the passthrough flags appended verbatim. -/
def pushChanges (w : World) (extra : List String) : List Event × Except String Unit :=
  if !w.fetchOk then
    ([Event.gitFetch "origin" w.mainBranch], .error "failed to fetch from origin")
  else if !w.currentBranch.ok then
    ([Event.gitFetch "origin" w.mainBranch, Event.gitRevParse],
      .error "failed to get current branch")
  else
    let args := ["push", "origin", w.currentBranch.out] ++ extra
    if w.pushCmd.ok then
      ([Event.gitFetch "origin" w.mainBranch, Event.gitRevParse, Event.gitPush args], .ok ())
    else
      ([Event.gitFetch "origin" w.mainBranch, Event.gitRevParse, Event.gitPush args],
        .error "failed to push changes")

/-- Embedding of `updatePRBody`: generate a body from ticket, branch, commit
subjects and diff, review it, and on approval `gh pr edit <num> --body`.
Rejection or any failure is an error to the caller. -/
def updatePRBody (w : World) (prNumber branch commitMsgs diff ticket : String) :
    List Event × Except String Unit :=
  let input := buildInputData ticket branch "" commitMsgs diff
  match GenerateMessage (w.gen 0) with
  | .error e =>
    ([Event.genCall .prBody input], .error ("failed generating PR body: " ++ e))
  | .ok prBodyAI =>
    match editContentInEditor (w.editor 0) with
    | (_, false) =>
      ([Event.genCall .prBody input, Event.editorSession prBodyAI], .error "PR update canceled")
    | (body, true) =>
      let ev := [Event.genCall .prBody input, Event.editorSession prBodyAI,
        Event.ghPrEdit prNumber body]
      if w.prEditCmd.ok then (ev, .ok ()) else (ev, .error "failed to update PR")

/-- Embedding of `createNewPR` (a `void` function in the source: every internal
failure is logged and swallowed): generate a title, strip the sentinel bracket
from its first line when no ticket was detected, review it; then generate a
body seeded with the approved title, review it; then
`gh pr create --draft --title --body`. -/
def createNewPR (w : World) (branch commitMsgs diff ticket : String) : List Event :=
  let tIn := buildInputData ticket branch "" commitMsgs diff
  match GenerateMessage (w.gen 0) with
  | .error _ => [Event.genCall .prTitle tIn]
  | .ok prTitleAI =>
    let f0 := firstLineOf prTitleAI
    let firstLine := if ticket == "NO-TICKET" then stripLeading f0 "[NO-TICKET] " else f0
    match editContentInEditor (w.editor 0) with
    | (_, false) =>
      [Event.genCall .prTitle tIn, Event.editorSession firstLine,
        Event.info "🚫 PR creation canceled (no save on title)."]
    | (title, true) =>
      let bIn := buildInputData ticket branch title commitMsgs diff
      match GenerateMessage (w.gen 1) with
      | .error _ =>
        [Event.genCall .prTitle tIn, Event.editorSession firstLine, Event.genCall .prBody bIn]
      | .ok prBodyAI =>
        match editContentInEditor (w.editor 1) with
        | (_, false) =>
          [Event.genCall .prTitle tIn, Event.editorSession firstLine,
            Event.genCall .prBody bIn, Event.editorSession prBodyAI,
            Event.info "🚫 PR creation canceled (no save on body)."]
        | (body, true) =>
          [Event.genCall .prTitle tIn, Event.editorSession firstLine,
            Event.genCall .prBody bIn, Event.editorSession prBodyAI,
            Event.ghPrCreate title body]

/-- Embedding of `openPRInBrowser`: a missing number is reported and skipped,
otherwise `gh pr view --web` runs (its result discarded). -/
def openPRInBrowser (prNumber : String) : List Event :=
  if prNumber == "" then [Event.info "⚠️ No PR number to open in browser."]
  else [Event.ghPrView prNumber]

/-- Embedding of `GitAI.Push`: resolve the branch, no-op when nothing is ahead
of the tracking ref, fetch and push, look up an existing PR, then either update
its body or create a new draft PR (re-resolving the number afterwards,
best-effort), and finally open the resolved number in the browser.  The
commit-subject and diff reads after the push discard their errors, as in the
source. -/
def gaiPush (w : World) (extra : List String) : List Event × Except String Unit :=
  if !w.currentBranch.ok then
    ([Event.gitRevParse], .error "could not get current branch")
  else
    let branch := w.currentBranch.out
    match hasCommitsToPush w branch with
    | (eH, .error e) => (Event.gitRevParse :: eH, .error e)
    | (eH, .ok hasCommits) =>
      if !hasCommits then
        (Event.gitRevParse :: eH ++ [Event.info "ℹ️ Nothing to push. Exiting."], .ok ())
      else
        match pushChanges w extra with
        | (eP, .error e) => (Event.gitRevParse :: eH ++ eP, .error e)
        | (eP, .ok _) =>
          match getExistingPRNumber (w.lookup 0) with
          | .error e =>
            (Event.gitRevParse :: eH ++ eP ++ [Event.ghPrList branch], .error e)
          | .ok prNumber =>
            let commitMsgs := (w.commitMsgs true).out
            let diff := (w.unstagedDiff false).out
            let ticket := detectTicketNumber branch
            let eMid := [Event.ghPrList branch, Event.gitLog w.mainBranch branch,
              Event.gitDiff false]
            if prNumber != "" then
              match updatePRBody w prNumber branch commitMsgs diff ticket with
              | (eU, .error e) =>
                (Event.gitRevParse :: eH ++ eP ++ eMid ++ eU, .error e)
              | (eU, .ok _) =>
                (Event.gitRevParse :: eH ++ eP ++ eMid ++ eU ++ openPRInBrowser prNumber,
                  .ok ())
            else
              let eC := createNewPR w branch commitMsgs diff ticket
              let prNumber2 :=
                match getExistingPRNumber (w.lookup 1) with
                | .ok s => s
                | .error _ => ""
              (Event.gitRevParse :: eH ++ eP ++ eMid ++ eC ++ [Event.ghPrList branch] ++
                openPRInBrowser prNumber2, .ok ())

/-- Base world used to instantiate witnesses: every command succeeds and
returns empty output, generation returns one completion, editor sessions save
non-empty content. -/
def baseWorld : World where
  mainBranch := "main"
  stagedDiff := fun _ => ⟨"", true⟩
  unstagedDiff := fun _ => ⟨"", true⟩
  addAllOk := true
  currentBranch := ⟨"feature-x", true⟩
  commitMsgs := fun _ => ⟨"", true⟩
  fetchOk := true
  pushCmd := ⟨"", true⟩
  commitCmd := ⟨"", true⟩
  stashCmd := ⟨"", true⟩
  prEditCmd := ⟨"", true⟩
  prCreateCmd := ⟨"", true⟩
  lookup := fun _ => .ok []
  gen := fun _ => .ok ⟨[⟨⟨"ai"⟩⟩]⟩
  editor := fun _ => ⟨true, true, true, true, true, "edited"⟩

/-- claim C2, counterexample: a session in which the modification timestamp did
not change but the final content is non-empty is nevertheless approved by
`editContentInEditor`, contradicting the claimed biconditional. -/
theorem claim2_counterexample :
    (editContentInEditor ⟨true, true, true, true, false, "x"⟩).2 = true ∧
      (⟨true, true, true, true, false, "x"⟩ : EditSession).mtimeChanged = false := by
  decide

/-- claim C2, amended: the current review step `editContentInEditor` approves
iff the temp-file create, write, editor launch and re-read all succeed and the
trimmed final content is non-empty — the modification timestamp is not
consulted; the timestamp conjunct holds only of the older `editContentWithVim`
variant, which approves iff create, launch and re-read succeed, the timestamp
changed and the trimmed content is non-empty. -/
theorem claim2_amended (s : EditSession) :
    ((editContentInEditor s).2 = true ↔
      (s.createOk = true ∧ s.writeOk = true ∧ s.launchOk = true ∧ s.readOk = true ∧
        trimSpace s.finalContent ≠ "")) ∧
    ((editContentWithVim s).2 = true ↔
      (s.createOk = true ∧ s.launchOk = true ∧ s.readOk = true ∧
        s.mtimeChanged = true ∧ trimSpace s.finalContent ≠ "")) := by
  obtain ⟨c, wr, l, r, m, f⟩ := s
  unfold editContentInEditor editContentWithVim
  cases c <;> cases wr <;> cases l <;> cases r <;> cases m <;>
    by_cases h : trimSpace f = "" <;> simp_all

/-- claim C8: `GenerateMessage` fails iff the completion call returned a
transport error or zero candidate completions; otherwise it returns the content
of the first candidate. -/
theorem claim8_generate_message (r : Except String ChatResponse) :
    ((∃ e, GenerateMessage r = .error e) ↔
      ((∃ e, r = .error e) ∨ ∃ resp, r = .ok resp ∧ resp.choices = [])) ∧
    (∀ resp c rest, r = .ok resp → resp.choices = c :: rest →
      GenerateMessage r = .ok c.message.content) := by
  constructor
  · cases r with
    | error e => simp [GenerateMessage]
    | ok resp =>
      cases h : resp.choices with
      | nil => simp [GenerateMessage, h]
      | cons c tl => simp [GenerateMessage, h]
  · intro resp c rest hr hc
    subst hr
    simp [GenerateMessage, hc]

/-- claim C8, witness: a response with one candidate yields its content. -/
theorem claim8_generate_message_witness :
    GenerateMessage (.ok ⟨[⟨⟨"hello"⟩⟩]⟩) = .ok "hello" :=
  (claim8_generate_message _).2 ⟨[⟨⟨"hello"⟩⟩]⟩ ⟨⟨"hello"⟩⟩ [] rfl rfl

/-- claim C5: when both diffs trim to empty (and the diff reads succeed), the
commit action reads the two diffs, reports the no-op and ends successfully —
no staging, no generation call, no commit invocation. -/
theorem claim5_commit_noop (w : World) (extra : List String)
    (h1 : (w.stagedDiff false).ok = true) (h2 : (w.unstagedDiff false).ok = true)
    (h3 : trimSpace (w.stagedDiff false).out = "")
    (h4 : trimSpace (w.unstagedDiff false).out = "") :
    gaiCommit w extra =
      ([Event.gitDiff true, Event.gitDiff false, Event.info "ℹ️ Nothing to commit. Exiting."],
        .ok ()) := by
  unfold gaiCommit hasChanges
  simp [h1, h2, h3, h4]

/-- claim C5, witness. -/
theorem claim5_commit_noop_witness :
    gaiCommit baseWorld ["-s"] =
      ([Event.gitDiff true, Event.gitDiff false, Event.info "ℹ️ Nothing to commit. Exiting."],
        .ok ()) :=
  claim5_commit_noop baseWorld ["-s"] rfl rfl (by decide) (by decide)

/-- claim C10: for every world — in particular when both diffs are empty — the
stash action begins by reading the unstaged diff and invoking generation on an
input block built from that diff alone; the staged diff is never read, and the
review step runs whenever generation succeeds, all before any stash-push. -/
theorem claim10_stash_always_generates (w : World) (extra : List String) :
    (∃ rest, (gaiStash w extra).1 =
        Event.gitDiff false ::
          Event.genCall .commitMsg (buildInputData "" "" "" "" (w.unstagedDiff false).out) ::
          rest) ∧
    (Event.gitDiff true ∉ (gaiStash w extra).1) ∧
    (∀ c, GenerateMessage (w.gen 0) = .ok c →
      Event.editorSession c ∈ (gaiStash w extra).1) := by
  unfold gaiStash generateDiffBasedMessage
  cases hg : GenerateMessage (w.gen 0) with
  | error e =>
    simp [hg]
  | ok c =>
    rcases he : editContentInEditor (w.editor 0) with ⟨txt, saved⟩
    cases saved <;> by_cases hs : w.stashCmd.ok = true <;> simp [hg, he, hs]

/-- claim C10, witness: with the generation call succeeding, the review step
runs inside the stash action. -/
theorem claim10_stash_always_generates_witness :
    Event.editorSession "ai" ∈ (gaiStash baseWorld []).1 :=
  (claim10_stash_always_generates baseWorld []).2.2 "ai" rfl

/-- World with one open PR for the current branch, commits still ahead of the
configured main branch, a clean tree and no operator flags.  This is exactly
the repository state after a successful push of a feature branch with no new
commits since: the branch is one commit ahead of origin/main, the PR created
by the first push is open, and a repeated `git push` exits zero. -/
def pushWorld : World :=
  { baseWorld with
    commitMsgs := fun _ => ⟨"fix: a", true⟩
    lookup := fun _ => .ok [7]
    editor := fun _ => ⟨true, true, true, true, true, "BODY"⟩ }

/-- claim C6, counterexample: with no operator-supplied flags, the only
`git push` invocation of the push action is `git push origin feature-x` — no
upstream-tracking flag is added by default. -/
theorem claim6_counterexample :
    ((gaiPush pushWorld []).1.filter
        (fun e => match e with | Event.gitPush _ => true | _ => false) =
      [Event.gitPush ["push", "origin", "feature-x"]]) ∧
    "--set-upstream" ∉ ["push", "origin", "feature-x"] ∧
    "-u" ∉ ["push", "origin", "feature-x"] := by
  decide

/-- claim C6, amended: `pushChanges` fetches the configured main branch from
origin first; a fetch failure is fatal (the error returns and no push runs);
otherwise it pushes the current branch to origin with the operator passthrough
flags appended verbatim — it does not itself add an upstream flag. -/
theorem claim6_amended (w : World) (extra : List String) :
    ((pushChanges w extra).1.head? = some (Event.gitFetch "origin" w.mainBranch)) ∧
    (w.fetchOk = false →
      pushChanges w extra =
        ([Event.gitFetch "origin" w.mainBranch], .error "failed to fetch from origin")) ∧
    (w.fetchOk = true → w.currentBranch.ok = true →
      Event.gitPush (["push", "origin", w.currentBranch.out] ++ extra) ∈
        (pushChanges w extra).1) := by
  unfold pushChanges
  by_cases hf : w.fetchOk = true <;>
    by_cases hb : w.currentBranch.ok = true <;>
    by_cases hp : w.pushCmd.ok = true <;>
    simp [hf, hb, hp]

/-- claim C6, witness: with fetch succeeding, the push invocation carries the
branch and the passthrough flag. -/
theorem claim6_amended_witness :
    Event.gitPush (["push", "origin", baseWorld.currentBranch.out] ++ ["--force"]) ∈
      (pushChanges baseWorld ["--force"]).1 :=
  (claim6_amended baseWorld ["--force"]).2.2 rfl rfl

/-- Shape of the events emitted by `hasChanges`: only diff reads. -/
lemma mem_hasChanges_events (w : World) (e : Event) (h : e ∈ (hasChanges w).1) :
    e = Event.gitDiff true ∨ e = Event.gitDiff false := by
  unfold hasChanges at h
  split_ifs at h <;> simp at h <;> tauto

/-- Shape of the events emitted by `stageChangesIfNeeded`: a diff read and
possibly the stage-all invocation. -/
lemma mem_stageChanges_events (w : World) (e : Event) (h : e ∈ (stageChangesIfNeeded w).1) :
    e = Event.gitDiff true ∨ e = Event.gitAddAll := by
  unfold stageChangesIfNeeded at h
  split_ifs at h <;> simp at h <;> tauto

/-- Shape of the events emitted by `generateDiffBasedMessage`: a diff read, a
generation call and possibly a review session — never a Git or PR mutation. -/
lemma mem_gdm_events (w : World) (staged added : Bool) (gi ei : Nat) (e : Event)
    (h : e ∈ (generateDiffBasedMessage w staged added gi ei).1) :
    e = Event.gitDiff staged ∨ (∃ i, e = Event.genCall .commitMsg i) ∨
      ∃ s, e = Event.editorSession s := by
  unfold generateDiffBasedMessage at h
  rcases hg : GenerateMessage (w.gen gi) with err | ai <;> rw [hg] at h <;> simp at h
  · rcases h with h | h
    · exact Or.inl h
    · exact Or.inr (Or.inl ⟨_, h⟩)
  · rcases h with h | h | h
    · exact Or.inl h
    · exact Or.inr (Or.inl ⟨_, h⟩)
    · exact Or.inr (Or.inr ⟨_, h⟩)

/-- Shape of the events emitted by `pushChanges`: fetch, branch resolution and
the push invocation. -/
lemma mem_pushChanges_events (w : World) (extra : List String) (e : Event)
    (h : e ∈ (pushChanges w extra).1) :
    e = Event.gitFetch "origin" w.mainBranch ∨ e = Event.gitRevParse ∨
      ∃ args, e = Event.gitPush args := by
  unfold pushChanges at h
  split_ifs at h <;> simp at h <;>
    first
    | exact Or.inl h
    | (rcases h with h | h
       · exact Or.inl h
       · exact Or.inr (Or.inl h))
    | (rcases h with h | h | h
       · exact Or.inl h
       · exact Or.inr (Or.inl h)
       · exact Or.inr (Or.inr ⟨_, h⟩))

/-- Shape of the events emitted by `updatePRBody`: the only PR edit it can emit
carries the approved review text for the given number, and only when the review
step approved. -/
lemma mem_updatePRBody_events (w : World) (num br cm df tk : String) (e : Event)
    (h : e ∈ (updatePRBody w num br cm df tk).1) :
    (∃ i, e = Event.genCall .prBody i) ∨ (∃ s, e = Event.editorSession s) ∨
      (e = Event.ghPrEdit num (editContentInEditor (w.editor 0)).1 ∧
        (editContentInEditor (w.editor 0)).2 = true) := by
  unfold updatePRBody at h
  cases hg : GenerateMessage (w.gen 0) with
  | error err => rw [hg] at h; simp at h; exact Or.inl ⟨_, h⟩
  | ok ai =>
    rw [hg] at h
    rcases he : editContentInEditor (w.editor 0) with ⟨txt, saved⟩
    rw [he] at h
    cases saved with
    | false =>
      simp at h
      rcases h with h | h
      · exact Or.inl ⟨_, h⟩
      · exact Or.inr (Or.inl ⟨_, h⟩)
    | true =>
      split_ifs at h <;> simp at h <;>
        (rcases h with h | h | h
         · exact Or.inl ⟨_, h⟩
         · exact Or.inr (Or.inl ⟨_, h⟩)
         · exact Or.inr (Or.inr ⟨h, rfl⟩))

/-- Shape of the events emitted by `createNewPR`: the only PR creation it can
emit carries the approved title review text and the approved body review text,
and only when both review steps approved. -/
lemma mem_createNewPR_events (w : World) (br cm df tk : String) (e : Event)
    (h : e ∈ createNewPR w br cm df tk) :
    (∃ k i, e = Event.genCall k i) ∨ (∃ s, e = Event.editorSession s) ∨
      (∃ s, e = Event.info s) ∨
      (e = Event.ghPrCreate (editContentInEditor (w.editor 0)).1
          (editContentInEditor (w.editor 1)).1 ∧
        (editContentInEditor (w.editor 0)).2 = true ∧
        (editContentInEditor (w.editor 1)).2 = true) := by
  unfold createNewPR at h
  cases hg : GenerateMessage (w.gen 0) with
  | error err => rw [hg] at h; simp at h; exact Or.inl ⟨_, _, h⟩
  | ok ai =>
    rw [hg] at h
    rcases he : editContentInEditor (w.editor 0) with ⟨t0, s0⟩
    rw [he] at h
    cases s0 with
    | false =>
      simp at h
      rcases h with h | h | h
      · exact Or.inl ⟨_, _, h⟩
      · exact Or.inr (Or.inl ⟨_, h⟩)
      · exact Or.inr (Or.inr (Or.inl ⟨_, h⟩))
    | true =>
      cases hg1 : GenerateMessage (w.gen 1) with
      | error err =>
        rw [hg1] at h; simp at h
        rcases h with h | h | h
        · exact Or.inl ⟨_, _, h⟩
        · exact Or.inr (Or.inl ⟨_, h⟩)
        · exact Or.inl ⟨_, _, h⟩
      | ok ai1 =>
        rw [hg1] at h
        rcases he1 : editContentInEditor (w.editor 1) with ⟨t1, s1⟩
        rw [he1] at h
        cases s1 with
        | false =>
          simp at h
          rcases h with h | h | h | h | h
          · exact Or.inl ⟨_, _, h⟩
          · exact Or.inr (Or.inl ⟨_, h⟩)
          · exact Or.inl ⟨_, _, h⟩
          · exact Or.inr (Or.inl ⟨_, h⟩)
          · exact Or.inr (Or.inr (Or.inl ⟨_, h⟩))
        | true =>
          simp at h
          rcases h with h | h | h | h | h
          · exact Or.inl ⟨_, _, h⟩
          · exact Or.inr (Or.inl ⟨_, h⟩)
          · exact Or.inl ⟨_, _, h⟩
          · exact Or.inr (Or.inl ⟨_, h⟩)
          · exact Or.inr (Or.inr (Or.inr ⟨h, rfl, rfl⟩))

/-- Shape of the events emitted by `openPRInBrowser`: a report or the view
invocation. -/
lemma mem_openPR_events (num : String) (e : Event) (h : e ∈ openPRInBrowser num) :
    (∃ s, e = Event.info s) ∨ e = Event.ghPrView num := by
  unfold openPRInBrowser at h
  split at h <;> simp_all

/-- Approval content of `generateDiffBasedMessage`: a saved result is exactly
the review output of the corresponding editor session, with approval. -/
lemma gdm_saved (w : World) (staged added : Bool) (gi ei : Nat) (msg : String)
    (h : (generateDiffBasedMessage w staged added gi ei).2 = (msg, true)) :
    msg = (editContentInEditor (w.editor ei)).1 ∧
      (editContentInEditor (w.editor ei)).2 = true := by
  unfold generateDiffBasedMessage at h
  cases hg : GenerateMessage (w.gen gi) with
  | error err => rw [hg] at h; simp_all
  | ok ai =>
    rw [hg] at h
    simp at h
    rw [h]
    exact ⟨rfl, rfl⟩

/-- Every event of the commit action is a read, a report, a generation or
review step, or the single commit invocation carrying the approved review
text. -/
lemma mem_gaiCommit_events (w : World) (extra : List String) (e : Event)
    (h : e ∈ (gaiCommit w extra).1) :
    e ∈ (hasChanges w).1 ∨ (∃ s, e = Event.info s) ∨
      e ∈ (stageChangesIfNeeded w).1 ∨
      (∃ added, e ∈ (generateDiffBasedMessage w true added 0 0).1) ∨
      (e = Event.gitCommit (editContentInEditor (w.editor 0)).1 extra ∧
        (editContentInEditor (w.editor 0)).2 = true) := by
  unfold gaiCommit at h
  rcases h1 : hasChanges w with ⟨e1, r1⟩
  rw [h1] at h
  cases r1 with
  | error err => exact Or.inl h
  | ok b =>
    cases b with
    | false =>
      simp at h
      rcases h with h | h
      · exact Or.inl (by simp [h])
      · exact Or.inr (Or.inl ⟨_, h⟩)
    | true =>
      simp only [Bool.not_true, Bool.false_eq_true, if_false] at h
      rcases h2 : stageChangesIfNeeded w with ⟨e2, fl, r2⟩
      rw [h2] at h
      cases r2 with
      | error err =>
        simp at h
        rcases h with h | h
        · exact Or.inl (by simp [h])
        · exact Or.inr (Or.inr (Or.inl (by simp [h])))
      | ok u =>
        simp only at h
        rcases h3 : generateDiffBasedMessage w true fl 0 0 with ⟨e3, msg, saved⟩
        rw [h3] at h
        have hmsg : (generateDiffBasedMessage w true fl 0 0).2 = (msg, saved) := by rw [h3]
        cases saved with
        | false =>
          simp at h
          rcases h with h | h | h | h
          · exact Or.inl (by simp [h])
          · exact Or.inr (Or.inr (Or.inl (by simp [h])))
          · exact Or.inr (Or.inr (Or.inr (Or.inl ⟨fl, by rw [h3]; exact h⟩)))
          · exact Or.inr (Or.inl ⟨_, h⟩)
        | true =>
          have hs := gdm_saved w true fl 0 0 msg hmsg
          split_ifs at h <;> simp at h <;>
            (rcases h with h | h | h
             · exact Or.inl (by simp [h])
             · exact Or.inr (Or.inr (Or.inl (by simp [h])))
             · rcases h with h | h
               · exact Or.inr (Or.inr (Or.inr (Or.inl ⟨fl, by rw [h3]; exact h⟩)))
               · exact Or.inr (Or.inr (Or.inr (Or.inr ⟨by rw [h, hs.1], hs.2⟩))))

/-- Every event of the stash action is a read, a report, a generation or
review step, or the single stash-push invocation carrying the approved review
text. -/
lemma mem_gaiStash_events (w : World) (extra : List String) (e : Event)
    (h : e ∈ (gaiStash w extra).1) :
    e ∈ (generateDiffBasedMessage w false false 0 0).1 ∨ (∃ s, e = Event.info s) ∨
      (e = Event.gitStashPush (editContentInEditor (w.editor 0)).1 extra ∧
        (editContentInEditor (w.editor 0)).2 = true) := by
  unfold gaiStash at h
  rcases h1 : generateDiffBasedMessage w false false 0 0 with ⟨e1, msg, saved⟩
  rw [h1] at h
  cases saved with
  | false =>
    simp at h
    rcases h with h | h
    · exact Or.inl h
    · exact Or.inr (Or.inl ⟨_, h⟩)
  | true =>
    have hs := gdm_saved w false false 0 0 msg (by rw [h1])
    split_ifs at h <;> simp at h <;>
      (rcases h with h | h
       · exact Or.inl h
       · exact Or.inr (Or.inr ⟨by rw [h, hs.1], hs.2⟩))

/-- Every event of the push action is a read, a report, an event of
`pushChanges`, a PR lookup, an event of `updatePRBody` or `createNewPR`, or a
browser-open invocation. -/
lemma mem_gaiPush_events (w : World) (extra : List String) (e : Event)
    (h : e ∈ (gaiPush w extra).1) :
    e = Event.gitRevParse ∨ (∃ a b, e = Event.gitLog a b) ∨ (∃ s, e = Event.info s) ∨
      e ∈ (pushChanges w extra).1 ∨ (∃ br, e = Event.ghPrList br) ∨ e = Event.gitDiff false ∨
      (∃ num, e ∈ (updatePRBody w num w.currentBranch.out (w.commitMsgs true).out
        (w.unstagedDiff false).out (detectTicketNumber w.currentBranch.out)).1) ∨
      e ∈ createNewPR w w.currentBranch.out (w.commitMsgs true).out (w.unstagedDiff false).out
        (detectTicketNumber w.currentBranch.out) ∨
      (∃ num, e = Event.ghPrView num) := by
  unfold gaiPush at h
  by_cases hb : w.currentBranch.ok = true
  case neg =>
    simp [hb] at h
    exact Or.inl h
  case pos =>
    simp only [hb, Bool.not_true, Bool.false_eq_true, if_false] at h
    rcases hH : hasCommitsToPush w w.currentBranch.out with ⟨eH, rH⟩
    rw [hH] at h
    have hHev : ∀ x, x ∈ eH → x = Event.gitLog w.mainBranch w.currentBranch.out := by
      intro x hx
      have : eH = (hasCommitsToPush w w.currentBranch.out).1 := by rw [hH]
      rw [this] at hx
      unfold hasCommitsToPush at hx
      simpa using hx
    cases rH with
    | error err =>
      simp at h
      rcases h with h | h
      · exact Or.inl h
      · exact Or.inr (Or.inl ⟨_, _, hHev e h⟩)
    | ok hasCommits =>
      cases hasCommits with
      | false =>
        simp at h
        rcases h with h | h | h
        · exact Or.inl h
        · exact Or.inr (Or.inl ⟨_, _, hHev e h⟩)
        · exact Or.inr (Or.inr (Or.inl ⟨_, h⟩))
      | true =>
        simp only [Bool.not_true, Bool.false_eq_true, if_false] at h
        rcases hP : pushChanges w extra with ⟨eP, rP⟩
        rw [hP] at h
        cases rP with
        | error err =>
          simp at h
          rcases h with h | h | h
          · exact Or.inl h
          · exact Or.inr (Or.inl ⟨_, _, hHev e h⟩)
          · exact Or.inr (Or.inr (Or.inr (Or.inl h)))
        | ok u =>
          cases hN : getExistingPRNumber (w.lookup 0) with
          | error err =>
            rw [hN] at h
            simp at h
            rcases h with h | h | h | h
            · exact Or.inl h
            · exact Or.inr (Or.inl ⟨_, _, hHev e h⟩)
            · exact Or.inr (Or.inr (Or.inr (Or.inl h)))
            · exact Or.inr (Or.inr (Or.inr (Or.inr (Or.inl ⟨_, h⟩))))
          | ok prNumber =>
            rw [hN] at h
            by_cases hpr : (prNumber != "") = true
            · simp only [hpr, if_true] at h
              rcases hU : updatePRBody w prNumber w.currentBranch.out (w.commitMsgs true).out
                  (w.unstagedDiff false).out (detectTicketNumber w.currentBranch.out) with ⟨eU, rU⟩
              rw [hU] at h
              cases rU with
              | error err =>
                simp at h
                rcases h with h | h | h | h | h | h
                · exact Or.inl h
                · exact Or.inr (Or.inl ⟨_, _, hHev e h⟩)
                · exact Or.inr (Or.inr (Or.inr (Or.inl h)))
                · exact Or.inr (Or.inr (Or.inr (Or.inr (Or.inl ⟨_, h⟩))))
                · exact Or.inr (Or.inl ⟨_, _, h⟩)
                · rcases h with h | h
                  · exact Or.inr (Or.inr (Or.inr (Or.inr (Or.inr (Or.inl h)))))
                  · exact Or.inr (Or.inr (Or.inr (Or.inr (Or.inr (Or.inr (Or.inl
                      ⟨prNumber, by rw [hU]; exact h⟩))))))
              | ok u2 =>
                simp at h
                rcases h with h | h | h | h | h | h | h | h
                · exact Or.inl h
                · exact Or.inr (Or.inl ⟨_, _, hHev e h⟩)
                · exact Or.inr (Or.inr (Or.inr (Or.inl h)))
                · exact Or.inr (Or.inr (Or.inr (Or.inr (Or.inl ⟨_, h⟩))))
                · exact Or.inr (Or.inl ⟨_, _, h⟩)
                · exact Or.inr (Or.inr (Or.inr (Or.inr (Or.inr (Or.inl h)))))
                · exact Or.inr (Or.inr (Or.inr (Or.inr (Or.inr (Or.inr (Or.inl
                    ⟨prNumber, by rw [hU]; exact h⟩))))))
                · rcases mem_openPR_events prNumber e h with ⟨s, h⟩ | h
                  · exact Or.inr (Or.inr (Or.inl ⟨_, h⟩))
                  · exact Or.inr (Or.inr (Or.inr (Or.inr (Or.inr (Or.inr (Or.inr (Or.inr
                      ⟨_, h⟩)))))))
            · simp only [hpr, if_false] at h
              simp at h
              rcases h with h | h | h | h | h | h | h | h | h
              · exact Or.inl h
              · exact Or.inr (Or.inl ⟨_, _, hHev e h⟩)
              · exact Or.inr (Or.inr (Or.inr (Or.inl h)))
              · exact Or.inr (Or.inr (Or.inr (Or.inr (Or.inl ⟨_, h⟩))))
              · exact Or.inr (Or.inl ⟨_, _, h⟩)
              · exact Or.inr (Or.inr (Or.inr (Or.inr (Or.inr (Or.inl h)))))
              · exact Or.inr (Or.inr (Or.inr (Or.inr (Or.inr (Or.inr (Or.inr (Or.inl h)))))))
              · exact Or.inr (Or.inr (Or.inr (Or.inr (Or.inl ⟨_, h⟩))))
              · rcases mem_openPR_events _ e h with ⟨s, h⟩ | h
                · exact Or.inr (Or.inr (Or.inl ⟨_, h⟩))
                · exact Or.inr (Or.inr (Or.inr (Or.inr (Or.inr (Or.inr (Or.inr (Or.inr
                    ⟨_, h⟩)))))))

lemma toDigitsCore_len_ge (b : Nat) (f : Nat) : ∀ (n : Nat) (l : List Char),
    l.length ≤ (Nat.toDigitsCore b f n l).length := by
  induction f with
  | zero => intro n l; simp [Nat.toDigitsCore]
  | succ f ih =>
    intro n l
    simp only [Nat.toDigitsCore]
    split
    · simp
    · exact le_trans (by simp) (ih _ _)

lemma toDigits_ne_nil (b n : Nat) : Nat.toDigits b n ≠ [] := by
  unfold Nat.toDigits
  simp only [Nat.toDigitsCore]
  split
  · simp
  · intro h
    have := toDigitsCore_len_ge b n (n / b) [Nat.digitChar (n % b)]
    rw [h] at this
    simp at this

lemma natRepr_ne_empty (n : Nat) : Nat.repr n ≠ "" := by
  unfold Nat.repr
  intro h
  have : (Nat.toDigits 10 n).asString.data = ("" : String).data := by rw [h]
  simp [List.asString] at this
  exact toDigits_ne_nil 10 n this

/-- The `%d` rendering of a PR number is never the empty string, so a found PR
always takes the update branch. -/
lemma int_toString_ne_empty (n : Int) : toString n ≠ "" := by
  show Int.repr n ≠ ""
  cases n with
  | ofNat m => exact natRepr_ne_empty m
  | negSucc m =>
    show ("-" ++ Nat.repr (m + 1)) ≠ ""
    intro h
    have : ("-" ++ Nat.repr (m + 1)).data = ("" : String).data := by rw [h]
    simp [String.data_append] at this

/-- Under a resolvable branch, commits ahead, and a successful fetch and push,
the push action with a non-empty first lookup takes exactly the update path:
the trace is the reconciliation steps followed by the events of `updatePRBody`
on the first PR number, then (on success) the browser-open step. -/
lemma gaiPush_update_path (w : World) (extra : List String) (n : Int) (ns : List Int)
    (eU : List Event) (rU : Except String Unit)
    (hb : w.currentBranch.ok = true) (hmOk : (w.commitMsgs false).ok = true)
    (hm : trimSpace (w.commitMsgs false).out ≠ "") (hf : w.fetchOk = true)
    (hp : w.pushCmd.ok = true) (hl : w.lookup 0 = .ok (n :: ns))
    (hU : updatePRBody w (toString n) w.currentBranch.out (w.commitMsgs true).out
      (w.unstagedDiff false).out (detectTicketNumber w.currentBranch.out) = (eU, rU)) :
    gaiPush w extra =
      (Event.gitRevParse :: Event.gitLog w.mainBranch w.currentBranch.out ::
        Event.gitFetch "origin" w.mainBranch :: Event.gitRevParse ::
        Event.gitPush (["push", "origin", w.currentBranch.out] ++ extra) ::
        Event.ghPrList w.currentBranch.out :: Event.gitLog w.mainBranch w.currentBranch.out ::
        Event.gitDiff false ::
        (eU ++ match rU with | .ok _ => openPRInBrowser (toString n) | .error _ => []),
       match rU with | .ok _ => .ok () | .error e => .error e) := by
  have hHC : hasCommitsToPush w w.currentBranch.out =
      ([Event.gitLog w.mainBranch w.currentBranch.out], Except.ok true) := by
    unfold hasCommitsToPush
    simp [hmOk, hm]
  have hPC : pushChanges w extra =
      ([Event.gitFetch "origin" w.mainBranch, Event.gitRevParse,
        Event.gitPush (["push", "origin", w.currentBranch.out] ++ extra)], Except.ok ()) := by
    unfold pushChanges
    simp [hf, hb, hp]
  have hns : (toString n != "") = true := bne_iff_ne.mpr (int_toString_ne_empty n)
  unfold gaiPush
  simp only [hb, hHC, hPC, hl, getExistingPRNumber, hns, Bool.not_true, Bool.false_eq_true,
    if_false, if_true]
  cases rU <;> simp only [hU] <;> simp

/-- Under the same reachability conditions, an empty first lookup takes exactly
the create path: the trace is the reconciliation steps, the events of
`createNewPR`, the re-lookup, and the browser-open step on the re-resolved
number, and the action ends successfully. -/
lemma gaiPush_create_path (w : World) (extra : List String)
    (hb : w.currentBranch.ok = true) (hmOk : (w.commitMsgs false).ok = true)
    (hm : trimSpace (w.commitMsgs false).out ≠ "") (hf : w.fetchOk = true)
    (hp : w.pushCmd.ok = true) (hl : w.lookup 0 = .ok []) :
    gaiPush w extra =
      (Event.gitRevParse :: Event.gitLog w.mainBranch w.currentBranch.out ::
        Event.gitFetch "origin" w.mainBranch :: Event.gitRevParse ::
        Event.gitPush (["push", "origin", w.currentBranch.out] ++ extra) ::
        Event.ghPrList w.currentBranch.out :: Event.gitLog w.mainBranch w.currentBranch.out ::
        Event.gitDiff false ::
        (createNewPR w w.currentBranch.out (w.commitMsgs true).out (w.unstagedDiff false).out
            (detectTicketNumber w.currentBranch.out) ++
          Event.ghPrList w.currentBranch.out ::
          openPRInBrowser (match getExistingPRNumber (w.lookup 1) with
            | .ok s => s
            | .error _ => "")),
       .ok ()) := by
  have hHC : hasCommitsToPush w w.currentBranch.out =
      ([Event.gitLog w.mainBranch w.currentBranch.out], Except.ok true) := by
    unfold hasCommitsToPush
    simp [hmOk, hm]
  have hPC : pushChanges w extra =
      ([Event.gitFetch "origin" w.mainBranch, Event.gitRevParse,
        Event.gitPush (["push", "origin", w.currentBranch.out] ++ extra)], Except.ok ()) := by
    unfold pushChanges
    simp [hf, hb, hp]
  unfold gaiPush
  simp only [hb, hHC, hPC, hl, getExistingPRNumber, Bool.not_true, Bool.false_eq_true, if_false]
  simp

/-- The update path always issues its generation call, whatever the oracle
outcomes. -/
lemma updatePRBody_gen_mem (w : World) (num br cm df tk : String) :
    Event.genCall .prBody (buildInputData tk br "" cm df) ∈
      (updatePRBody w num br cm df tk).1 := by
  unfold updatePRBody
  cases hg : GenerateMessage (w.gen 0) with
  | error e => simp
  | ok ai =>
    rcases he : editContentInEditor (w.editor 0) with ⟨txt, saved⟩
    cases saved
    · simp
    · split_ifs <;> simp

/-- Shape of a fully successful `updatePRBody` run. -/
lemma updatePRBody_ok (w : World) (num br cm df tk c : String)
    (hg : GenerateMessage (w.gen 0) = .ok c)
    (he : (editContentInEditor (w.editor 0)).2 = true)
    (hpe : w.prEditCmd.ok = true) :
    updatePRBody w num br cm df tk =
      ([Event.genCall .prBody (buildInputData tk br "" cm df), Event.editorSession c,
        Event.ghPrEdit num (editContentInEditor (w.editor 0)).1], .ok ()) := by
  unfold updatePRBody
  rw [hg]
  rcases hE : editContentInEditor (w.editor 0) with ⟨txt, saved⟩
  rw [hE] at he
  cases saved
  · simp at he
  · simp [hpe]

/-- Shape of a fully successful `createNewPR` run. -/
lemma createNewPR_ok (w : World) (br cm df tk c0 c1 : String)
    (hg0 : GenerateMessage (w.gen 0) = .ok c0)
    (he0 : (editContentInEditor (w.editor 0)).2 = true)
    (hg1 : GenerateMessage (w.gen 1) = .ok c1)
    (he1 : (editContentInEditor (w.editor 1)).2 = true) :
    createNewPR w br cm df tk =
      [Event.genCall .prTitle (buildInputData tk br "" cm df),
        Event.editorSession (if tk == "NO-TICKET" then
          stripLeading (firstLineOf c0) "[NO-TICKET] " else firstLineOf c0),
        Event.genCall .prBody (buildInputData tk br (editContentInEditor (w.editor 0)).1 cm df),
        Event.editorSession c1,
        Event.ghPrCreate (editContentInEditor (w.editor 0)).1
          (editContentInEditor (w.editor 1)).1] := by
  unfold createNewPR
  rw [hg0]
  rcases hE0 : editContentInEditor (w.editor 0) with ⟨t0, s0⟩
  rw [hE0] at he0
  cases s0
  · simp at he0
  · rw [hg1]
    rcases hE1 : editContentInEditor (w.editor 1) with ⟨t1, s1⟩
    rw [hE1] at he1
    cases s1
    · simp at he1
    · simp

/-- claim C4: under a resolvable branch, commits ahead, and a successful fetch
and push, PR reconciliation branches deterministically on the first lookup.  A
non-empty lookup takes the update path: no PR is created, a body generation
call is issued, and (when generation, review and the edit command succeed) the
existing PR, identified by the first result, is edited and opened, ending
successfully.  An empty lookup takes the create path: no PR body edit ever
happens, the action ends successfully, and when both generations and reviews
succeed a draft PR is created with the approved title and body, the number is
re-resolved and opened — a missing number merely skips the browser step. -/
theorem claim4_reconcile_branching (w : World) (extra : List String)
    (hb : w.currentBranch.ok = true) (hmOk : (w.commitMsgs false).ok = true)
    (hm : trimSpace (w.commitMsgs false).out ≠ "") (hf : w.fetchOk = true)
    (hp : w.pushCmd.ok = true) :
    (∀ n ns, w.lookup 0 = .ok (n :: ns) →
      ((∀ t b, Event.ghPrCreate t b ∉ (gaiPush w extra).1) ∧
        Event.genCall .prBody
          (buildInputData (detectTicketNumber w.currentBranch.out) w.currentBranch.out ""
            (w.commitMsgs true).out (w.unstagedDiff false).out) ∈ (gaiPush w extra).1 ∧
        (∀ c, GenerateMessage (w.gen 0) = .ok c →
          (editContentInEditor (w.editor 0)).2 = true → w.prEditCmd.ok = true →
          Event.ghPrEdit (toString n) (editContentInEditor (w.editor 0)).1 ∈
              (gaiPush w extra).1 ∧
            Event.ghPrView (toString n) ∈ (gaiPush w extra).1 ∧
            (gaiPush w extra).2 = .ok ()))) ∧
    (w.lookup 0 = .ok [] →
      ((∀ num b, Event.ghPrEdit num b ∉ (gaiPush w extra).1) ∧
        (gaiPush w extra).2 = .ok () ∧
        (∀ c0 c1, GenerateMessage (w.gen 0) = .ok c0 →
          (editContentInEditor (w.editor 0)).2 = true →
          GenerateMessage (w.gen 1) = .ok c1 →
          (editContentInEditor (w.editor 1)).2 = true →
          Event.ghPrCreate (editContentInEditor (w.editor 0)).1
              (editContentInEditor (w.editor 1)).1 ∈ (gaiPush w extra).1 ∧
            (∀ m ms, w.lookup 1 = .ok (m :: ms) →
              Event.ghPrView (toString m) ∈ (gaiPush w extra).1) ∧
            (w.lookup 1 = .ok [] →
              ∀ num, Event.ghPrView num ∉ (gaiPush w extra).1)))) := by
  constructor
  · intro n ns hl
    rcases hU : updatePRBody w (toString n) w.currentBranch.out (w.commitMsgs true).out
        (w.unstagedDiff false).out (detectTicketNumber w.currentBranch.out) with ⟨eU, rU⟩
    have hPush := gaiPush_update_path w extra n ns eU rU hb hmOk hm hf hp hl hU
    refine ⟨?_, ?_, ?_⟩
    · intro t b hmem
      rw [hPush] at hmem
      cases rU with
      | error e =>
        simp at hmem
        have := mem_updatePRBody_events w (toString n) _ _ _ _ _ (by rw [hU]; exact hmem)
        rcases this with ⟨i, h'⟩ | ⟨s, h'⟩ | ⟨h', _⟩ <;> simp at h'
      | ok u =>
        simp at hmem
        rcases hmem with h | h
        · have := mem_updatePRBody_events w (toString n) _ _ _ _ _ (by rw [hU]; exact h)
          rcases this with ⟨i, h'⟩ | ⟨s, h'⟩ | ⟨h', _⟩ <;> simp at h'
        · rcases mem_openPR_events _ _ h with ⟨s, h'⟩ | h' <;> simp at h'
    · have hg := updatePRBody_gen_mem w (toString n) w.currentBranch.out (w.commitMsgs true).out
        (w.unstagedDiff false).out (detectTicketNumber w.currentBranch.out)
      rw [hU] at hg
      rw [hPush]
      cases rU <;> simp <;> tauto
    · intro c hg he hpe
      have hU2 := updatePRBody_ok w (toString n) w.currentBranch.out (w.commitMsgs true).out
        (w.unstagedDiff false).out (detectTicketNumber w.currentBranch.out) c hg he hpe
      rw [hU2] at hU
      injection hU with hU1 hU2eq
      subst hU1
      cases hU2eq
      rw [hPush]
      refine ⟨?_, ?_, rfl⟩
      · simp
      · simp [openPRInBrowser, int_toString_ne_empty n]
  · intro hl
    have hPush := gaiPush_create_path w extra hb hmOk hm hf hp hl
    refine ⟨?_, ?_, ?_⟩
    · intro num b hmem
      rw [hPush] at hmem
      simp at hmem
      rcases hmem with h | h
      · have := mem_createNewPR_events w _ _ _ _ _ h
        rcases this with ⟨k, i, h'⟩ | ⟨s, h'⟩ | ⟨s, h'⟩ | ⟨h', _⟩ <;> simp at h'
      · rcases mem_openPR_events _ _ h with ⟨s, h'⟩ | h' <;> simp at h'
    · rw [hPush]
    · intro c0 c1 hg0 he0 hg1 he1
      have hC := createNewPR_ok w w.currentBranch.out (w.commitMsgs true).out
        (w.unstagedDiff false).out (detectTicketNumber w.currentBranch.out) c0 c1
        hg0 he0 hg1 he1
      refine ⟨?_, ?_, ?_⟩
      · rw [hPush, hC]
        simp
      · intro m ms hl1
        rw [hPush]
        simp [hl1, getExistingPRNumber, openPRInBrowser, int_toString_ne_empty m]
      · intro hl1 num hmem
        rw [hPush] at hmem
        simp [hl1, getExistingPRNumber, openPRInBrowser] at hmem
        have := mem_createNewPR_events w _ _ _ _ _ hmem
        rcases this with ⟨k, i, h'⟩ | ⟨s, h'⟩ | ⟨s, h'⟩ | ⟨h', _⟩ <;> simp at h'

/-- World that takes the create path (no PR on first lookup, one after). -/
def createWorld : World :=
  { baseWorld with
    commitMsgs := fun _ => ⟨"fix: a", true⟩
    lookup := fun i => if i = 0 then .ok [] else .ok [7] }

/-- claim C4, witness: in `createWorld` the create path really creates a draft
PR from the two approved review texts. -/
theorem claim4_reconcile_branching_witness :
    Event.ghPrCreate (editContentInEditor (createWorld.editor 0)).1
      (editContentInEditor (createWorld.editor 1)).1 ∈ (gaiPush createWorld []).1 :=
  (((claim4_reconcile_branching createWorld [] rfl rfl (by decide) rfl rfl).2 rfl).2.2
    "ai" "ai" rfl (by decide) rfl (by decide)).1

/-- World of the claim C7 counterexample: no PR exists, both generations and
reviews succeed, and `gh pr create` exits non-zero; the re-lookup then finds
PR 7. -/
def createFailWorld : World :=
  { baseWorld with
    commitMsgs := fun _ => ⟨"fix: a", true⟩
    lookup := fun i => if i = 0 then .ok [] else .ok [7]
    gen := fun i => if i = 0 then .ok ⟨[⟨⟨"T"⟩⟩]⟩ else .ok ⟨[⟨⟨"B"⟩⟩]⟩
    editor := fun i => if i = 0 then ⟨true, true, true, true, true, "TITLE"⟩
      else ⟨true, true, true, true, true, "BODY"⟩
    prCreateCmd := ⟨"boom", false⟩ }

/-- claim C7, counterexample: the draft-creation subprocess exits non-zero in
`createFailWorld`, yet the push action does not abort — the PR-number re-lookup
and the browser-open step still run and the action ends successfully. -/
theorem claim7_counterexample :
    createFailWorld.prCreateCmd.ok = false ∧
      Event.ghPrCreate "TITLE" "BODY" ∈ (gaiPush createFailWorld []).1 ∧
      (gaiPush createFailWorld []).2 = .ok () ∧
      Event.ghPrView "7" ∈ (gaiPush createFailWorld []).1 :=
  ⟨rfl, by decide, rfl, by decide⟩

/-- claim C7, amended: a failing current-branch query or commits-ahead check
aborts the push action immediately with an error (the trace stops right
there); failures of the fetch, the push and the first PR lookup each abort
with an error before the next step; any failure of the PR body update —
generation failure, review rejection or a failing `gh pr edit` — aborts with
that error before the browser-open step; but the create path always ends
successfully: failures inside PR creation are logged and recovered, and the
action proceeds to the re-lookup and browser-open steps. -/
theorem claim7_amended (w : World) (extra : List String) :
    ((w.currentBranch.ok = false →
        gaiPush w extra = ([Event.gitRevParse], .error "could not get current branch")) ∧
      (w.currentBranch.ok = true → (w.commitMsgs false).ok = false →
        gaiPush w extra =
          ([Event.gitRevParse, Event.gitLog w.mainBranch w.currentBranch.out],
            .error "failed to check for commits to push")) ∧
      (w.currentBranch.ok = true → (w.commitMsgs false).ok = true →
        trimSpace (w.commitMsgs false).out ≠ "" → w.fetchOk = false →
        (∃ e, (gaiPush w extra).2 = .error e) ∧
          ∀ args, Event.gitPush args ∉ (gaiPush w extra).1) ∧
      (w.currentBranch.ok = true → (w.commitMsgs false).ok = true →
        trimSpace (w.commitMsgs false).out ≠ "" → w.fetchOk = true → w.pushCmd.ok = false →
        (∃ e, (gaiPush w extra).2 = .error e) ∧
          ∀ br, Event.ghPrList br ∉ (gaiPush w extra).1) ∧
      (w.currentBranch.ok = true → (w.commitMsgs false).ok = true →
        trimSpace (w.commitMsgs false).out ≠ "" → w.fetchOk = true → w.pushCmd.ok = true →
        w.lookup 0 = .cmdErr →
        (∃ e, (gaiPush w extra).2 = .error e) ∧
          ∀ k i, Event.genCall k i ∉ (gaiPush w extra).1) ∧
      (∀ n ns eU msg, w.currentBranch.ok = true → (w.commitMsgs false).ok = true →
        trimSpace (w.commitMsgs false).out ≠ "" → w.fetchOk = true → w.pushCmd.ok = true →
        w.lookup 0 = .ok (n :: ns) →
        updatePRBody w (toString n) w.currentBranch.out (w.commitMsgs true).out
          (w.unstagedDiff false).out (detectTicketNumber w.currentBranch.out) =
            (eU, .error msg) →
        (gaiPush w extra).2 = .error msg ∧
          ∀ num, Event.ghPrView num ∉ (gaiPush w extra).1) ∧
      (w.currentBranch.ok = true → (w.commitMsgs false).ok = true →
        trimSpace (w.commitMsgs false).out ≠ "" → w.fetchOk = true → w.pushCmd.ok = true →
        w.lookup 0 = .ok [] →
        (gaiPush w extra).2 = .ok ())) := by
  refine ⟨?_, ?_, ?_, ?_, ?_, ?_, ?_⟩
  · intro hbf
    unfold gaiPush
    simp [hbf]
  · intro hb hmf
    unfold gaiPush hasCommitsToPush
    simp [hb, hmf]
  · intro hb hmOk hm hff
    have hHC : hasCommitsToPush w w.currentBranch.out =
        ([Event.gitLog w.mainBranch w.currentBranch.out], Except.ok true) := by
      unfold hasCommitsToPush
      simp [hmOk, hm]
    constructor
    · refine ⟨"failed to fetch from origin", ?_⟩
      unfold gaiPush pushChanges
      simp [hb, hHC, hff]
    · intro args hmem
      unfold gaiPush pushChanges at hmem
      simp [hb, hHC, hff] at hmem
  · intro hb hmOk hm hf hpf
    have hHC : hasCommitsToPush w w.currentBranch.out =
        ([Event.gitLog w.mainBranch w.currentBranch.out], Except.ok true) := by
      unfold hasCommitsToPush
      simp [hmOk, hm]
    constructor
    · refine ⟨"failed to push changes", ?_⟩
      unfold gaiPush pushChanges
      simp [hb, hHC, hf, hpf]
    · intro br hmem
      unfold gaiPush pushChanges at hmem
      simp [hb, hHC, hf, hpf] at hmem
  · intro hb hmOk hm hf hp hl
    have hHC : hasCommitsToPush w w.currentBranch.out =
        ([Event.gitLog w.mainBranch w.currentBranch.out], Except.ok true) := by
      unfold hasCommitsToPush
      simp [hmOk, hm]
    constructor
    · refine ⟨"failed to check existing PRs", ?_⟩
      unfold gaiPush pushChanges
      simp [hb, hHC, hf, hp, hl, getExistingPRNumber]
    · intro k i hmem
      unfold gaiPush pushChanges at hmem
      simp [hb, hHC, hf, hp, hl, getExistingPRNumber] at hmem
  · intro n ns eU msg hb hmOk hm hf hp hl hU
    have hPush := gaiPush_update_path w extra n ns eU (.error msg) hb hmOk hm hf hp hl hU
    constructor
    · rw [hPush]
    · intro num hmem
      rw [hPush] at hmem
      simp at hmem
      have := mem_updatePRBody_events w (toString n) _ _ _ _ _ (by rw [hU]; exact hmem)
      rcases this with ⟨i, h2⟩ | ⟨s, h2⟩ | ⟨h2, _⟩ <;> simp at h2
  · intro hb hmOk hm hf hp hl
    rw [gaiPush_create_path w extra hb hmOk hm hf hp hl]

/-- claim C7, amended, witness: in `createWorld` the create path ends
successfully. -/
theorem claim7_amended_witness :
    (gaiPush createWorld []).2 = .ok () :=
  (claim7_amended createWorld []).2.2.2.2.2.2 rfl rfl (by decide) rfl rfl rfl

/-- claim C3, counterexample: `pushWorld` is the state after a successful push
of a feature branch with zero new commits since (the branch still ahead of
origin/main, its PR open, the tree clean).  Invoking push there nevertheless
performs the fetch-push cycle and a generation call, and reports no no-op —
the commits-to-push guard compares against origin/main, not against the
branch tracking ref. -/
theorem claim3_counterexample :
    Event.gitFetch "origin" "main" ∈ (gaiPush pushWorld []).1 ∧
      Event.gitPush ["push", "origin", "feature-x"] ∈ (gaiPush pushWorld []).1 ∧
      Event.genCall .prBody (buildInputData "NO-TICKET" "feature-x" "" "fix: a" "") ∈
        (gaiPush pushWorld []).1 ∧
      Event.info "ℹ️ Nothing to push. Exiting." ∉ (gaiPush pushWorld []).1 := by
  decide

/-- claim C3, amended: the no-op guard of push is the commits-ahead-of-main
check, not the absence of new commits since the previous push.  When the log
between origin/<main> and the branch trims to empty, push reports the no-op
and ends successfully with no fetch, push, generation or PR step at all; and
a repeated push of a branch whose PR already exists creates no duplicate PR —
the update path is taken — even though it re-runs the fetch-push cycle and
generation. -/
theorem claim3_amended (w : World) (extra : List String) :
    ((w.currentBranch.ok = true → (w.commitMsgs false).ok = true →
        trimSpace (w.commitMsgs false).out = "" →
        gaiPush w extra =
          ([Event.gitRevParse, Event.gitLog w.mainBranch w.currentBranch.out,
            Event.info "ℹ️ Nothing to push. Exiting."], .ok ())) ∧
      (∀ n ns, w.currentBranch.ok = true → (w.commitMsgs false).ok = true →
        trimSpace (w.commitMsgs false).out ≠ "" → w.fetchOk = true → w.pushCmd.ok = true →
        w.lookup 0 = .ok (n :: ns) →
        ∀ t b, Event.ghPrCreate t b ∉ (gaiPush w extra).1)) := by
  constructor
  · intro h1 h2 h3
    unfold gaiPush hasCommitsToPush
    simp [h1, h2, h3]
  · intro n ns hb hmOk hm hf hp hl t b hmem
    rcases hU : updatePRBody w (toString n) w.currentBranch.out (w.commitMsgs true).out
        (w.unstagedDiff false).out (detectTicketNumber w.currentBranch.out) with ⟨eU, rU⟩
    have hPush := gaiPush_update_path w extra n ns eU rU hb hmOk hm hf hp hl hU
    rw [hPush] at hmem
    cases rU with
    | error e =>
      simp at hmem
      have := mem_updatePRBody_events w (toString n) _ _ _ _ _ (by rw [hU]; exact hmem)
      rcases this with ⟨i, h2⟩ | ⟨s, h2⟩ | ⟨h2, _⟩ <;> simp at h2
    | ok u =>
      simp at hmem
      rcases hmem with h | h
      · have := mem_updatePRBody_events w (toString n) _ _ _ _ _ (by rw [hU]; exact h)
        rcases this with ⟨i, h2⟩ | ⟨s, h2⟩ | ⟨h2, _⟩ <;> simp at h2
      · rcases mem_openPR_events _ _ h with ⟨s, h2⟩ | h2 <;> simp at h2

/-- claim C3, amended, witness: the no-op branch at a world with an empty
commits-ahead log. -/
theorem claim3_amended_witness :
    gaiPush baseWorld [] =
      ([Event.gitRevParse, Event.gitLog "main" "feature-x",
        Event.info "ℹ️ Nothing to push. Exiting."], .ok ()) :=
  (claim3_amended baseWorld []).1 rfl rfl (by decide)

/-- claim C1: every Git or PR mutation of the three actions carries exactly the
final text returned by the corresponding review step with approval — never the
raw generated candidate — and a rejected review step means the mutation of that
action is never invoked.  The commit, stash and update-body paths review once
(session 0); the create path reviews the title (session 0) and then the body
(session 1). -/
theorem claim1_mutations_only_approved (w : World) (extra : List String) :
    ((∀ m f, Event.gitCommit m f ∈ (gaiCommit w extra).1 →
        m = (editContentInEditor (w.editor 0)).1 ∧
          (editContentInEditor (w.editor 0)).2 = true) ∧
      ((editContentInEditor (w.editor 0)).2 = false →
        ∀ m f, Event.gitCommit m f ∉ (gaiCommit w extra).1)) ∧
    ((∀ m f, Event.gitStashPush m f ∈ (gaiStash w extra).1 →
        m = (editContentInEditor (w.editor 0)).1 ∧
          (editContentInEditor (w.editor 0)).2 = true) ∧
      ((editContentInEditor (w.editor 0)).2 = false →
        ∀ m f, Event.gitStashPush m f ∉ (gaiStash w extra).1)) ∧
    ((∀ num b, Event.ghPrEdit num b ∈ (gaiPush w extra).1 →
        b = (editContentInEditor (w.editor 0)).1 ∧
          (editContentInEditor (w.editor 0)).2 = true) ∧
      (∀ t b, Event.ghPrCreate t b ∈ (gaiPush w extra).1 →
        t = (editContentInEditor (w.editor 0)).1 ∧
          (editContentInEditor (w.editor 0)).2 = true ∧
          b = (editContentInEditor (w.editor 1)).1 ∧
          (editContentInEditor (w.editor 1)).2 = true) ∧
      ((editContentInEditor (w.editor 0)).2 = false →
        (∀ num b, Event.ghPrEdit num b ∉ (gaiPush w extra).1) ∧
          (∀ t b, Event.ghPrCreate t b ∉ (gaiPush w extra).1)) ∧
      ((editContentInEditor (w.editor 1)).2 = false →
        ∀ t b, Event.ghPrCreate t b ∉ (gaiPush w extra).1)) := by
  have hc1 : ∀ m f, Event.gitCommit m f ∈ (gaiCommit w extra).1 →
      m = (editContentInEditor (w.editor 0)).1 ∧
        (editContentInEditor (w.editor 0)).2 = true := by
    intro m f hmem
    rcases mem_gaiCommit_events w extra _ hmem with h | ⟨s, h⟩ | h | ⟨a, h⟩ | ⟨h, happ⟩
    · rcases mem_hasChanges_events w _ h with h' | h' <;> simp at h'
    · simp at h
    · rcases mem_stageChanges_events w _ h with h' | h' <;> simp at h'
    · rcases mem_gdm_events w true a 0 0 _ h with h' | ⟨i, h'⟩ | ⟨s, h'⟩ <;> simp at h'
    · injection h with h1 h2
      exact ⟨h1, happ⟩
  have hs1 : ∀ m f, Event.gitStashPush m f ∈ (gaiStash w extra).1 →
      m = (editContentInEditor (w.editor 0)).1 ∧
        (editContentInEditor (w.editor 0)).2 = true := by
    intro m f hmem
    rcases mem_gaiStash_events w extra _ hmem with h | ⟨s, h⟩ | ⟨h, happ⟩
    · rcases mem_gdm_events w false false 0 0 _ h with h' | ⟨i, h'⟩ | ⟨s, h'⟩ <;> simp at h'
    · simp at h
    · injection h with h1 h2
      exact ⟨h1, happ⟩
  have hp1 : ∀ num b, Event.ghPrEdit num b ∈ (gaiPush w extra).1 →
      b = (editContentInEditor (w.editor 0)).1 ∧
        (editContentInEditor (w.editor 0)).2 = true := by
    intro num b hmem
    rcases mem_gaiPush_events w extra _ hmem with
      h | ⟨a1, a2, h⟩ | ⟨s, h⟩ | h | ⟨br, h⟩ | h | ⟨n2, h⟩ | h | ⟨n2, h⟩
    · simp at h
    · simp at h
    · simp at h
    · rcases mem_pushChanges_events w extra _ h with h' | h' | ⟨args, h'⟩ <;> simp at h'
    · simp at h
    · simp at h
    · rcases mem_updatePRBody_events w n2 _ _ _ _ _ h with ⟨i, h'⟩ | ⟨s, h'⟩ | ⟨h', happ⟩
      · simp at h'
      · simp at h'
      · injection h' with h1 h2
        exact ⟨h2, happ⟩
    · rcases mem_createNewPR_events w _ _ _ _ _ h with
        ⟨k, i, h'⟩ | ⟨s, h'⟩ | ⟨s, h'⟩ | ⟨h', _⟩ <;> simp at h'
    · simp at h
  have hp2 : ∀ t b, Event.ghPrCreate t b ∈ (gaiPush w extra).1 →
      t = (editContentInEditor (w.editor 0)).1 ∧
        (editContentInEditor (w.editor 0)).2 = true ∧
        b = (editContentInEditor (w.editor 1)).1 ∧
        (editContentInEditor (w.editor 1)).2 = true := by
    intro t b hmem
    rcases mem_gaiPush_events w extra _ hmem with
      h | ⟨a1, a2, h⟩ | ⟨s, h⟩ | h | ⟨br, h⟩ | h | ⟨n2, h⟩ | h | ⟨n2, h⟩
    · simp at h
    · simp at h
    · simp at h
    · rcases mem_pushChanges_events w extra _ h with h' | h' | ⟨args, h'⟩ <;> simp at h'
    · simp at h
    · simp at h
    · rcases mem_updatePRBody_events w n2 _ _ _ _ _ h with ⟨i, h'⟩ | ⟨s, h'⟩ | ⟨h', happ⟩ <;>
        simp at h'
    · rcases mem_createNewPR_events w _ _ _ _ _ h with
        ⟨k, i, h'⟩ | ⟨s, h'⟩ | ⟨s, h'⟩ | ⟨h', happ0, happ1⟩
      · simp at h'
      · simp at h'
      · simp at h'
      · injection h' with h1 h2
        exact ⟨h1, happ0, h2, happ1⟩
    · simp at h
  refine ⟨⟨hc1, ?_⟩, ⟨hs1, ?_⟩, hp1, hp2, ?_, ?_⟩
  · intro hfalse m f hmem
    have := (hc1 m f hmem).2
    rw [hfalse] at this
    exact Bool.false_ne_true this
  · intro hfalse m f hmem
    have := (hs1 m f hmem).2
    rw [hfalse] at this
    exact Bool.false_ne_true this
  · intro hfalse
    constructor
    · intro num b hmem
      have := (hp1 num b hmem).2
      rw [hfalse] at this
      exact Bool.false_ne_true this
    · intro t b hmem
      have := (hp2 t b hmem).2.1
      rw [hfalse] at this
      exact Bool.false_ne_true this
  · intro hfalse t b hmem
    have := (hp2 t b hmem).2.2.2
    rw [hfalse] at this
    exact Bool.false_ne_true this

lemma all_takeWhile (p : Char → Bool) (l : List Char) : (l.takeWhile p).all p = true := by
  induction l with
  | nil => rfl
  | cons a l ih =>
    by_cases h : p a = true
    · rw [List.takeWhile_cons_of_pos h]
      simp [h, ih]
    · rw [List.takeWhile_cons_of_neg h]
      rfl

lemma takeWhile_append_all (p : Char → Bool) (xs ys : List Char) (h : xs.all p = true) :
    (xs ++ ys).takeWhile p = xs ++ ys.takeWhile p := by
  induction xs with
  | nil => simp
  | cons a xs ih =>
    simp only [List.all_cons, Bool.and_eq_true] at h
    rw [List.cons_append, List.takeWhile_cons_of_pos h.1, ih h.2]
    rfl

lemma dropWhile_append_all (p : Char → Bool) (xs ys : List Char) (h : xs.all p = true) :
    (xs ++ ys).dropWhile p = ys.dropWhile p := by
  induction xs with
  | nil => simp
  | cons a xs ih =>
    simp only [List.all_cons, Bool.and_eq_true] at h
    rw [List.cons_append, List.dropWhile_cons_of_pos h.1, ih h.2]

/-- A complete pattern match placed at the start of a longer list is found by
`matchTicketAt`, extended with the digits that immediately follow it. -/
lemma matchTicketAt_of_shape (m t : List Char) (hs : ticketShape m = true) :
    matchTicketAt (m ++ t) = some (m ++ t.takeWhile Char.isDigit) := by
  unfold ticketShape at hs
  rw [Bool.and_eq_true] at hs
  obtain ⟨hu, hrest⟩ := hs
  rcases hd : m.dropWhile Char.isUpper with _ | ⟨c, d⟩
  · rw [hd] at hrest
    simp at hrest
  · rw [hd] at hrest
    simp only [Bool.and_eq_true] at hrest
    obtain ⟨⟨hc, hdne⟩, hdall⟩ := hrest
    have hceq : c = '-' := by
      have := beq_iff_eq.mp hc
      exact this
    subst hceq
    have hm : m = m.takeWhile Char.isUpper ++ '-' :: d := by
      conv_lhs => rw [← List.takeWhile_append_dropWhile Char.isUpper m]
      rw [hd]
    have h1 : m ++ t = m.takeWhile Char.isUpper ++ '-' :: (d ++ t) := by
      conv_lhs => rw [hm]
      simp
    have hnu : ¬ Char.isUpper '-' = true := by decide
    have htw : (m ++ t).takeWhile Char.isUpper = m.takeWhile Char.isUpper := by
      rw [h1, takeWhile_append_all Char.isUpper _ _ (all_takeWhile _ _),
        List.takeWhile_cons_of_neg hnu]
      simp
    have hdw : (m ++ t).dropWhile Char.isUpper = '-' :: (d ++ t) := by
      rw [h1, dropWhile_append_all Char.isUpper _ _ (all_takeWhile _ _),
        List.dropWhile_cons_of_neg hnu]
    have hdtw : (d ++ t).takeWhile Char.isDigit = d ++ t.takeWhile Char.isDigit :=
      takeWhile_append_all Char.isDigit d t hdall
    have hune : (m.takeWhile Char.isUpper).isEmpty = false := by
      revert hu
      cases (m.takeWhile Char.isUpper).isEmpty <;> simp
    unfold matchTicketAt
    dsimp only
    rw [htw, hdw]
    simp only [hune, Bool.false_eq_true, if_false, hdtw, beq_self_eq_true, if_true]
    cases d with
    | nil => simp at hdne
    | cons a d' =>
      simp only [List.cons_append, List.isEmpty_cons, Bool.false_eq_true, if_false]
      conv_rhs => rw [hm]
      simp

/-- What a successful `matchTicketAt` means: the result is a prefix of the
input and is a complete pattern match. -/
lemma matchTicketAt_some (l m : List Char) (h : matchTicketAt l = some m) :
    (∃ t, l = m ++ t) ∧ ticketShape m = true := by
  unfold matchTicketAt at h
  dsimp only at h
  cases hE : (l.takeWhile Char.isUpper).isEmpty with
  | true => rw [hE] at h; simp at h
  | false =>
    rw [hE] at h
    simp only [Bool.false_eq_true, if_false] at h
    rcases hd : l.dropWhile Char.isUpper with _ | ⟨c, rest⟩
    · rw [hd] at h
      simp at h
    · rw [hd] at h
      dsimp only at h
      by_cases hc : (c == '-') = true
      · rw [hc] at h
        simp only [if_true] at h
        cases hdE : (rest.takeWhile Char.isDigit).isEmpty with
        | true => rw [hdE] at h; simp at h
        | false =>
          rw [hdE] at h
          simp only [Bool.false_eq_true, if_false] at h
          have hm : m = l.takeWhile Char.isUpper ++ c :: rest.takeWhile Char.isDigit := by
            exact (Option.some_inj.mp h).symm
          have hceq : c = '-' := beq_iff_eq.mp hc
          constructor
          · refine ⟨rest.dropWhile Char.isDigit, ?_⟩
            conv_lhs => rw [← List.takeWhile_append_dropWhile Char.isUpper l]
            rw [hd, hm]
            simp [List.takeWhile_append_dropWhile]
          · subst hceq
            have hnu : ¬ Char.isUpper '-' = true := by decide
            have htw : m.takeWhile Char.isUpper = l.takeWhile Char.isUpper := by
              rw [hm, takeWhile_append_all Char.isUpper _ _ (all_takeWhile _ _),
                List.takeWhile_cons_of_neg hnu]
              simp
            have hdw : m.dropWhile Char.isUpper = '-' :: rest.takeWhile Char.isDigit := by
              rw [hm, dropWhile_append_all Char.isUpper _ _ (all_takeWhile _ _),
                List.dropWhile_cons_of_neg hnu]
            unfold ticketShape
            rw [htw, hdw, hE]
            simp [hdE, all_takeWhile]
      · rw [Bool.not_eq_true] at hc
        rw [hc] at h
        simp at h

/-- When the head of the list admits no match, no complete pattern match can
start there. -/
lemma matchTicketAt_none (l : List Char) (h : matchTicketAt l = none) :
    ∀ m t, l = m ++ t → ticketShape m = false := by
  intro m t hl
  cases hs : ticketShape m with
  | false => rfl
  | true =>
    have := matchTicketAt_of_shape m t hs
    rw [← hl, h] at this
    simp at this

/-- The match found at a position extends every complete pattern match that
starts at that position. -/
lemma matchTicketAt_longest (l m : List Char) (h : matchTicketAt l = some m) :
    ∀ m2 t2, l = m2 ++ t2 → ticketShape m2 = true → ∃ r, m2 ++ r = m := by
  intro m2 t2 hl hs
  have := matchTicketAt_of_shape m2 t2 hs
  rw [← hl, h] at this
  exact ⟨t2.takeWhile Char.isDigit, (Option.some_inj.mp this).symm⟩

/-- Full characterisation of the leftmost-match scan: a found match is a
complete pattern match occurring at the earliest possible position, and every
match starting at that same position is a prefix of it; when nothing is found,
no substring is a complete pattern match. -/
lemma findTicketList_spec (l : List Char) :
    (∀ m, findTicketList l = some m →
      ticketShape m = true ∧
      ∃ s t, l = s ++ m ++ t ∧
        (∀ s2 m2 t2, l = s2 ++ m2 ++ t2 → ticketShape m2 = true →
          s.length ≤ s2.length ∧ (s2.length = s.length → ∃ r, m2 ++ r = m))) ∧
    (findTicketList l = none →
      ∀ s m t, l = s ++ m ++ t → ticketShape m = false) := by
  induction l with
  | nil =>
    constructor
    · intro m h
      simp [findTicketList] at h
    · intro _ s m t hl
      have hm : m = [] := by
        cases m with
        | nil => rfl
        | cons a as => simp at hl
      subst hm
      rfl
  | cons c cs ih =>
    cases hM : matchTicketAt (c :: cs) with
    | some m0 =>
      constructor
      · intro m h
        unfold findTicketList at h
        rw [hM] at h
        have hm : m = m0 := by
          exact (Option.some_inj.mp h).symm
        subst hm
        obtain ⟨⟨t, ht⟩, hs⟩ := matchTicketAt_some (c :: cs) m hM
        refine ⟨hs, [], t, by simpa using ht, ?_⟩
        intro s2 m2 t2 hl2 hs2
        refine ⟨Nat.zero_le _, ?_⟩
        intro hlen
        have hs2nil : s2 = [] := List.length_eq_zero.mp (by simpa using hlen)
        subst hs2nil
        exact matchTicketAt_longest (c :: cs) m hM m2 t2 (by simpa using hl2) hs2
      · intro h
        unfold findTicketList at h
        rw [hM] at h
        simp at h
    | none =>
      have hstep : findTicketList (c :: cs) = findTicketList cs := by
        show (match matchTicketAt (c :: cs) with
          | some m => some m
          | none => findTicketList cs) = findTicketList cs
        rw [hM]
      constructor
      · intro m h
        rw [hstep] at h
        obtain ⟨hs, s, t, hcs, hmin⟩ := ih.1 m h
        refine ⟨hs, c :: s, t, by simp [hcs], ?_⟩
        intro s2 m2 t2 hl2 hs2
        cases s2 with
        | nil =>
          exfalso
          have := matchTicketAt_none (c :: cs) hM m2 t2 (by simpa using hl2)
          rw [hs2] at this
          simp at this
        | cons c2 s2' =>
          have hc2 : cs = s2' ++ m2 ++ t2 := by
            have h' := hl2
            simp at h'
            rw [List.append_assoc]
            exact h'.2
          obtain ⟨hmin1, hmin2⟩ := hmin s2' m2 t2 hc2 hs2
          constructor
          · simpa using Nat.succ_le_succ hmin1
          · intro hlen
            exact hmin2 (by simpa using hlen)
      · intro h
        rw [hstep] at h
        intro s m t hl
        cases s with
        | nil =>
          exact matchTicketAt_none (c :: cs) hM m t (by simpa using hl)
        | cons c2 s' =>
          have hcs2 : cs = s' ++ m ++ t := by
            have h' := hl
            simp at h'
            rw [List.append_assoc]
            exact h'.2
          exact ih.2 h s' m t hcs2

/-- claim C9: ticket detection is the total function embedding
`regexp.MustCompile([A-Z]+-\d+).FindString` with the sentinel default.  On the
two example branch names it returns the stated values; whenever the scan finds
a match, the detector returns it and that match is a complete pattern match
placed at the earliest position where any complete match starts, extending
every complete match at that position; whenever the scan finds nothing, the
detector returns the sentinel and no substring of the branch name is a
complete pattern match. -/
theorem claim9_detect_ticket :
    (detectTicketNumber "feature/ABC-123-login" = "ABC-123") ∧
    (detectTicketNumber "feature/login" = "NO-TICKET") ∧
    (∀ branch m, findTicketList branch.toList = some m →
      detectTicketNumber branch = m.asString ∧ ticketShape m = true ∧
      ∃ s t, branch.toList = s ++ m ++ t ∧
        (∀ s2 m2 t2, branch.toList = s2 ++ m2 ++ t2 → ticketShape m2 = true →
          s.length ≤ s2.length ∧ (s2.length = s.length → ∃ r, m2 ++ r = m))) ∧
    (∀ branch, findTicketList branch.toList = none →
      detectTicketNumber branch = "NO-TICKET" ∧
      ∀ s m t, branch.toList = s ++ m ++ t → ticketShape m = false) := by
  refine ⟨by decide, by decide, ?_, ?_⟩
  · intro branch m h
    obtain ⟨hs, hrest⟩ := (findTicketList_spec branch.toList).1 m h
    exact ⟨by unfold detectTicketNumber; rw [h], hs, hrest⟩
  · intro branch h
    exact ⟨by unfold detectTicketNumber; rw [h],
      (findTicketList_spec branch.toList).2 h⟩

/-- claim C9, witness: the example branch name resolves through the scan. -/
theorem claim9_detect_ticket_witness :
    detectTicketNumber "feature/ABC-123-login" = ("ABC-123".toList).asString :=
  (claim9_detect_ticket.2.2.1 "feature/ABC-123-login" "ABC-123".toList (by decide)).1

/-- World in which a commit actually happens, used to instantiate the claim C1
witness. -/
def commitWorld : World :=
  { baseWorld with stagedDiff := fun _ => ⟨"diff --git a b", true⟩ }

/-- claim C1, witness: the commit that the commit action performs in
`commitWorld` carries exactly the approved review text. -/
theorem claim1_mutations_only_approved_witness :
    "edited" = (editContentInEditor (commitWorld.editor 0)).1 ∧
      (editContentInEditor (commitWorld.editor 0)).2 = true :=
  (claim1_mutations_only_approved commitWorld []).1.1 "edited" [] (by decide)

end Gai
